import Mathlib

/-!
Shallow embedding of the FlightDrop offer-search core
(src/flightdrop/providers/amadeus.py, data model from
src/flightdrop/providers/base.py), together with proofs of the
specification's claims about it.

Modelling conventions:
* Python floats carrying prices are modelled as rationals (`Rat`); the
  claims only compare prices, never exercise rounding.
* Calendar dates (`datetime.date`) are modelled as their proleptic
  Gregorian ordinal (`Int`), exactly the value of Python's
  `date.toordinal()`; `date + timedelta(days=k)` becomes `+ k`.
* ISO timestamp strings stay `String`; the code only slices them
  (`s[:10]`).
* Python truthiness on optional strings (`if s:`) is `false` for both
  `None` and `""`; request-level optional fields are modelled as
  `Option` where `none` stands for absent-or-empty.
* JSON lookups with defaults are made explicit in the raw-response
  structures below.
-/

namespace FlightDrop

/-- Offer value object, from `FlightOffer` in src/flightdrop/providers/base.py.
The `carriers` tuple is a `List String`. -/
structure FlightOffer where
  price : Rat
  currency : String
  deeplink : Option String
  outbound_departure : Option String
  outbound_arrival : Option String
  inbound_departure : Option String
  inbound_arrival : Option String
  carriers : List String
deriving DecidableEq, Repr

/-- One segment of a raw itinerary as consumed by `_search_date`:
`departure.at`, `arrival.at`, `carrierCode`, `operating.carrierCode`.
A `none` carrier code models an absent key; Python also treats `""` as
falsy, which the parser checks explicitly. -/
structure Segment where
  departure_at : String
  arrival_at : String
  carrierCode : Option String
  operatingCarrierCode : Option String
deriving DecidableEq, Repr

/-- Raw itinerary: its `segments` list. -/
structure Itinerary where
  segments : List Segment
deriving DecidableEq, Repr

/-- Raw offer as consumed by `_search_date`.  `priceInfo` models
`offer.get("price", {})` followed by `price_info.get("grandTotal", 0)`:
`none` is an absent or empty `price` dict (falsy, offer skipped),
`some none` is a non-empty dict without `grandTotal` (total 0),
`some (some x)` is `grandTotal` x. -/
structure RawOffer where
  priceInfo : Option (Option Rat)
  itineraries : List Itinerary
deriving DecidableEq, Repr

/-- Raw search response: `payload["data"]` and
`payload["dictionaries"]["carriers"]` (an association list). -/
structure SearchResponse where
  data : List RawOffer
  carrierDict : List (String × String)
deriving DecidableEq, Repr

/-- Lookup in the carrier dictionary, `carrier_map.get(code)`. -/
def lookupCarrier (m : List (String × String)) (c : String) : Option String :=
  (m.find? (fun p => p.1 == c)).map Prod.snd

/-- Mirrors `label if label else carrier_code`: an absent label, or a
falsy (empty) label, falls back to the raw code. -/
def formatCarrier (m : List (String × String)) (c : String) : String :=
  match lookupCarrier m c with
  | some label => if label = "" then c else label
  | none => c

/-- Mirrors `if formatted not in carriers: carriers.append(formatted)`. -/
def addCarrier (carriers : List String) (x : String) : List String :=
  if x ∈ carriers then carriers else carriers ++ [x]

/-- Processing of one candidate code inside
`for carrier_code in [code, operating]`: falsy codes (`None` or `""`)
are skipped, others are resolved and appended if new. -/
def addCode (m : List (String × String)) (carriers : List String) :
    Option String → List String
  | none => carriers
  | some s => if s = "" then carriers else addCarrier carriers (formatCarrier m s)

/-- One iteration of the body `for carrier_code in [code, operating]`. -/
def addSegCodes (m : List (String × String)) (carriers : List String)
    (code operating : Option String) : List String :=
  addCode m (addCode m carriers code) operating

/-- Parse one raw offer, the loop body of `_search_date` (amadeus.py
lines 88-144).  Returns `none` when the offer is discarded (falsy price
dict, or total ≤ 0).  Note the faithful reproduction of the inbound
carrier handling: in the source, the loop
`for seg in inbound_segments:` merely reassigns `code`/`operating`, and
the appending loop `for carrier_code in [code, operating]:` runs once
after it, so only the LAST inbound segment's codes are appended. -/
def parseOffer (m : List (String × String)) (currency : String)
    (o : RawOffer) : Option FlightOffer :=
  match o.priceInfo with
  | none => none
  | some g =>
    let total := g.getD 0
    if total ≤ 0 then none
    else
      let obSegs := match o.itineraries.head? with
        | some it => it.segments
        | none => []
      let obDep := obSegs.head?.map Segment.departure_at
      let obArr := obSegs.getLast?.map Segment.arrival_at
      let carriers0 := obSegs.foldl
        (fun acc s => addSegCodes m acc s.carrierCode s.operatingCarrierCode) []
      let inSegs := match o.itineraries[1]? with
        | some it => it.segments
        | none => []
      let inDep := inSegs.head?.map Segment.departure_at
      let inArr := inSegs.getLast?.map Segment.arrival_at
      let carriers1 := match inSegs.getLast? with
        | some s => addSegCodes m carriers0 s.carrierCode s.operatingCarrierCode
        | none => carriers0
      some ⟨total, currency, none, obDep, obArr, inDep, inArr, carriers1⟩

/-- Price order used by `results.sort(key=lambda offer: offer.price)`
and `bucket.sort(key=lambda offer: offer.price)`. -/
def priceLE (a b : FlightOffer) : Prop := a.price ≤ b.price

instance : DecidableRel priceLE :=
  fun a b => inferInstanceAs (Decidable (a.price ≤ b.price))

instance : IsTotal FlightOffer priceLE :=
  ⟨fun a b => le_total a.price b.price⟩

instance : IsTrans FlightOffer priceLE :=
  ⟨fun _ _ _ h1 h2 => le_trans h1 h2⟩

/-- Parse a whole response, `_search_date` after the HTTP call
(amadeus.py lines 82-147): parse each offer of `data`, drop discarded
ones, and sort ascending by price.  Python's `list.sort` is a stable
ascending sort, which `List.insertionSort` also is, and a stable sort's
output is unique, so the two agree. -/
def parseResponse (currency : String) (resp : SearchResponse) :
    List FlightOffer :=
  List.insertionSort priceLE (resp.data.filterMap (parseOffer resp.carrierDict currency))

/-- The dedup key tuple of amadeus.py lines 252-259. -/
def dedupKey (o : FlightOffer) :
    Rat × Option String × Option String × Option String × Option String × List String :=
  (o.price, o.outbound_departure, o.outbound_arrival,
   o.inbound_departure, o.inbound_arrival, o.carriers)

/-- The dedup loop of amadeus.py lines 249-262, abstracted over the
`seen` set (modelled as the list of keys added so far): keep an offer
iff its key was not seen before, first occurrence wins. -/
def dedupAux
    (seen : List (Rat × Option String × Option String × Option String × Option String × List String)) :
    List FlightOffer → List FlightOffer
  | [] => []
  | o :: rest =>
    if dedupKey o ∈ seen then dedupAux seen rest
    else o :: dedupAux (dedupKey o :: seen) rest

/-- The deduplication step: first-occurrence-wins filtering by
`dedupKey`, starting from an empty `seen` set. -/
def dedupOffers (l : List FlightOffer) : List FlightOffer := dedupAux [] l

/-- Bucket key of amadeus.py line 263:
`offer.outbound_departure[:10] if offer.outbound_departure else "unknown"`.
Both `None` and the falsy `""` yield `"unknown"`. -/
def bucketKey (o : FlightOffer) : String :=
  match o.outbound_departure with
  | some s => if s = "" then "unknown" else s.take 10
  | none => "unknown"

/-- Return signature key of amadeus.py line 277:
`offer.inbound_departure[:10] if offer.inbound_departure else "oneway"`. -/
def returnKey (o : FlightOffer) : String :=
  match o.inbound_departure with
  | some s => if s = "" then "oneway" else s.take 10
  | none => "oneway"

/-- Diversity signature of amadeus.py line 278: `(return_key, offer.price)`. -/
def sigOf (o : FlightOffer) : String × Rat := (returnKey o, o.price)

/-- The bucket of key `k`: the deduplicated offers whose bucket key is
`k`, in accumulation order.  This is the value `grouped[k]` built by
`grouped.setdefault(departure_key, []).append(offer)` (amadeus.py
lines 250-264). -/
def bucketOf (l : List FlightOffer) (k : String) : List FlightOffer :=
  (dedupOffers l).filter (fun o => bucketKey o == k)

/-- The distinct bucket keys present in `grouped`.  Python's dict holds
them in first-insertion order; since they are distinct and are only
sorted or membership-tested afterwards, any duplicate-free enumeration
is equivalent, and we use `List.dedup`. -/
def groupKeys (l : List FlightOffer) : List String :=
  ((dedupOffers l).map bucketKey).dedup

/-- Lexicographic comparison of code-point sequences, i.e. Python's
string `<=`.  (Lean's builtin `String.le` is the same order, but it is
defined by well-founded recursion on iterators and so does not reduce
in the kernel; this structural version does.) -/
def lexLeB : List Char → List Char → Bool
  | [], _ => true
  | _ :: _, [] => false
  | a :: as, b :: bs =>
    if a.toNat < b.toNat then true
    else if b.toNat < a.toNat then false
    else lexLeB as bs

/-- Python's string order, on the underlying character list. -/
def strLe (a b : String) : Prop := lexLeB a.data b.data = true

instance : DecidableRel strLe :=
  fun a b => inferInstanceAs (Decidable (lexLeB a.data b.data = true))

/-- Python's strict string order: the irreflexive part of `strLe`. -/
def strLt (a b : String) : Prop := strLe a b ∧ a ≠ b

instance : IsTotal String strLe :=
  ⟨fun a b => by
    have h : ∀ x y : List Char, lexLeB x y = true ∨ lexLeB y x = true := by
      intro x
      induction x with
      | nil => intro y; left; rfl
      | cons c cs ih =>
        intro y
        match y with
        | [] => right; rfl
        | d :: ds =>
          by_cases h1 : c.toNat < d.toNat
          · left; simp [lexLeB, h1]
          · by_cases h2 : d.toNat < c.toNat
            · right; simp [lexLeB, h1, h2]
            · simpa [lexLeB, h1, h2] using ih ds
    exact h a.data b.data⟩

instance : IsTrans String strLe :=
  ⟨fun a b c hab hbc => by
    have h : ∀ x y z : List Char,
        lexLeB x y = true → lexLeB y z = true → lexLeB x z = true := by
      intro x
      induction x with
      | nil => intro y z _ _; rfl
      | cons u us ih =>
        intro y z hxy hyz
        match y, z with
        | [], _ => simp [lexLeB] at hxy
        | v :: vs, [] => simp [lexLeB] at hyz
        | v :: vs, w :: ws =>
          simp only [lexLeB] at hxy hyz ⊢
          by_cases h1 : u.toNat < v.toNat
          · by_cases h2 : v.toNat < w.toNat
            · simp [show u.toNat < w.toNat by omega]
            · by_cases h3 : w.toNat < v.toNat
              · simp [h2, h3] at hyz
              · simp [show u.toNat < w.toNat by omega]
          · by_cases h1' : v.toNat < u.toNat
            · simp [h1, h1'] at hxy
            · by_cases h2 : v.toNat < w.toNat
              · simp [show u.toNat < w.toNat by omega]
              · by_cases h3 : w.toNat < v.toNat
                · simp [h2, h3] at hyz
                · have hx : ¬ u.toNat < w.toNat := by omega
                  have hz : ¬ w.toNat < u.toNat := by omega
                  simp only [h1, h1', if_neg, ite_false] at hxy
                  simp only [h2, h3, if_neg, ite_false] at hyz
                  simp only [hx, hz, if_neg, ite_false]
                  exact ih vs ws hxy hyz
    exact h a.data b.data c.data hab hbc⟩

/-- Ordered bucket keys, amadeus.py lines 266-268:
`sorted(k for k in grouped.keys() if k != "unknown")` and then
`"unknown"` appended iff present.  `sorted` on distinct strings is
modelled by `insertionSort` under the string order. -/
def orderedKeys (l : List FlightOffer) : List String :=
  List.insertionSort strLe ((groupKeys l).filter (fun k => !(k == "unknown")))
    ++ (if "unknown" ∈ groupKeys l then ["unknown"] else [])

/-- The greedy diversified selection walk of amadeus.py lines 274-284,
abstracted over the `per_return_seen` set (list of signatures) and the
current `len(selected)` count.  Python appends the offer and then
breaks once `len(selected) >= top_n`; here the branch `top_n ≤ count + 1`
returns the just-selected offer and stops. -/
def selectAux (top_n : Int) (seen : List (String × Rat)) (count : Int) :
    List FlightOffer → List FlightOffer
  | [] => []
  | o :: rest =>
    if sigOf o ∈ seen then selectAux top_n seen count rest
    else if top_n ≤ count + 1 then [o]
    else o :: selectAux top_n (sigOf o :: seen) (count + 1) rest

/-- Selection for one bucket, amadeus.py lines 272-284: sort the bucket
ascending by price (stable), then greedily select. -/
def selectBucket (top_n : Int) (bucket : List FlightOffer) : List FlightOffer :=
  selectAux top_n [] 0 (List.insertionSort priceLE bucket)

/-- The dedup/group/select pipeline of amadeus.py lines 249-287: the
final flattened result of `search_top` given the accumulated offers. -/
def flattenOffers (top_n : Int) (l : List FlightOffer) : List FlightOffer :=
  (orderedKeys l).flatMap (fun k => selectBucket top_n (bucketOf l k))


/-- Gregorian leap-year rule. -/
def isLeap (y : Nat) : Bool := (y % 4 == 0 && y % 100 != 0) || y % 400 == 0

/-- Days in the months strictly before month `m` of a year with the
given leap flag. -/
def daysBeforeMonth (leap : Bool) (m : Nat) : Nat :=
  (match m with
   | 1 => 0 | 2 => 31 | 3 => 59 | 4 => 90 | 5 => 120 | 6 => 151
   | 7 => 181 | 8 => 212 | 9 => 243 | 10 => 273 | 11 => 304 | 12 => 334
   | _ => 0)
  + (if leap && decide (2 < m) then 1 else 0)

/-- Proleptic Gregorian ordinal of year/month/day, as Python's
`date(y, m, d).toordinal()` (ordinal 1 is 0001-01-01). -/
def toOrdinal (y m d : Nat) : Int :=
  ((365 * (y - 1) + (y - 1) / 4 + (y - 1) / 400 - (y - 1) / 100
    + daysBeforeMonth (isLeap y) m + d : Nat) : Int)

/-- The argument record of `AmadeusProvider.search_top` (amadeus.py
lines 149-162).  Date strings arrive already parsed to ordinals; a
`none` in an optional field stands for Python `None` or the equally
falsy empty string. -/
structure SearchRequest where
  origin : String
  destination : String
  currency : String
  days_ahead : Int
  trip_type : String
  top_n : Int
  date_from : Option Int
  date_to : Option Int
  return_days : Option Int
  return_date_from : Option Int
  return_date_to : Option Int
deriving DecidableEq, Repr

/-- The distinct `ProviderError` outcomes of `search_top`, in the order
the source can raise them. -/
inductive SearchFailure
  | unsupportedTripType
  | invalidDateRange
  | missingReturnConfig
  | invalidReturnRange
  | noOffersFound
deriving DecidableEq, Repr

/-- Expansion of a start date and a span into consecutive dates:
`[start_date + timedelta(days=offset) for offset in range(span)]`
(amadeus.py lines 188 and 193-194).  A non-positive span yields the
empty list, as Python's `range` does. -/
def expandDates (start span : Int) : List Int :=
  (List.range span.toNat).map (fun (i : Nat) => start + (i : Int))

/-- Departure start date (amadeus.py lines 167-175): the explicit
`date_from` when the explicit pair is present, else tomorrow. -/
def departureStart (today : Int) (req : SearchRequest) : Int :=
  match req.date_from, req.date_to with
  | some s, some _ => s
  | _, _ => today + 1

/-- Departure span (amadeus.py lines 172 and 175). -/
def departureSpan (max_span : Int) (req : SearchRequest) : Int :=
  match req.date_from, req.date_to with
  | some s, some e => min (e - s + 1) max_span
  | _, _ => min req.days_ahead max_span

/-- The inverted-explicit-range check of amadeus.py line 170. -/
def departureRangeError (req : SearchRequest) : Bool :=
  match req.date_from, req.date_to with
  | some s, some e => e < s
  | _, _ => false

/-- The round-trip configuration check of amadeus.py line 177. -/
def missingReturnConfigError (req : SearchRequest) : Bool :=
  req.trip_type == "round_trip" && req.return_days.isNone
    && !(req.return_date_from.isSome && req.return_date_to.isSome)

/-- The inverted-return-range check of amadeus.py line 185. -/
def returnRangeError (req : SearchRequest) : Bool :=
  match req.return_date_from, req.return_date_to with
  | some s, some e => e < s
  | _, _ => false

/-- The `return_dates` list of amadeus.py lines 182-190: the expanded
explicit return range when both bounds are present, else empty. -/
def returnDates (max_span : Int) (req : SearchRequest) : List Int :=
  match req.return_date_from, req.return_date_to with
  | some s, some e => expandDates s (min (e - s + 1) max_span)
  | _, _ => []

/-- Observable events of the sweep loop: one progress notification
(`print`, carrying the cited index and total of the `({offset + 1}/{span})`
fragment) or one `_search_date` call. -/
inductive SweepEvent
  | progress (dep : Int) (ret : Option Int) (index : Int) (total : Int)
  | fetch (dep : Int) (ret : Option Int)
deriving DecidableEq, Repr

/-- Return pairings attempted for one departure date (the branch
structure of amadeus.py lines 195-243): for round trips, the non-empty
explicit return list filtered by `return_date < departure_date: continue`,
or the single `departure + return_days` date; for one-way trips, no
return date.  In the source, `return_days` is known non-`None` in its
branch for every configuration that passes the line-177 check and has a
non-empty or absent return range (with a present return range expanding
to the empty list, Python would instead fail on `int(None)`); `getD 0`
keeps the function total. -/
def depPairs (trip_type : String) (rds : List Int) (return_days : Option Int)
    (dep : Int) : List (Option Int) :=
  if trip_type = "round_trip" then
    if rds.isEmpty then [some (dep + return_days.getD 0)]
    else (rds.filter (fun r => !(r < dep))).map some
  else [none]

/-- The event trace of the sweep loop (amadeus.py lines 193-244): for
each departure offset, for each pairing, one progress notification
citing `(offset + 1)/span` immediately followed by one fetch call. -/
def pairBlocks (start span : Int) (trip_type : String) (rds : List Int)
    (return_days : Option Int) : List SweepEvent :=
  (List.range span.toNat).flatMap (fun (offset : Nat) =>
    (depPairs trip_type rds return_days (start + (offset : Int))).flatMap
      (fun r =>
        [SweepEvent.progress (start + (offset : Int)) r ((offset : Int) + 1) span,
         SweepEvent.fetch (start + (offset : Int)) r]))

/-- The full event trace of one `search_top` sweep. -/
def sweepTrace (max_span : Int) (today : Int) (req : SearchRequest) :
    List SweepEvent :=
  pairBlocks (departureStart today req) (departureSpan max_span req)
    req.trip_type (returnDates max_span req) req.return_days

/-- Projection of a trace event to a fetch call. -/
def fetchOf : SweepEvent → Option (Int × Option Int)
  | SweepEvent.fetch d r => some (d, r)
  | _ => none

/-- The fetch calls of a trace, in order. -/
def fetchCalls (trace : List SweepEvent) : List (Int × Option Int) :=
  trace.filterMap fetchOf

/-- The flat accumulated offer collection of the sweep (the
`offers.extend(self._search_date(...))` calls), with the remote
response abstracted as a function of the date pairing. -/
def sweepOffers (max_span : Int) (today : Int)
    (fetchRaw : Int → Option Int → SearchResponse) (req : SearchRequest) :
    List FlightOffer :=
  (fetchCalls (sweepTrace max_span today req)).flatMap
    (fun p => parseResponse req.currency (fetchRaw p.1 p.2))

/-- The whole of `AmadeusProvider.search_top` (amadeus.py lines
149-287), with its four validation errors in source order, the sweep,
the empty-result check of lines 246-247, and the dedup/group/select
pipeline. -/
def search_top (max_span : Int) (today : Int)
    (fetchRaw : Int → Option Int → SearchResponse) (req : SearchRequest) :
    Except SearchFailure (List FlightOffer) :=
  if ¬(req.trip_type = "one_way" ∨ req.trip_type = "round_trip") then
    .error .unsupportedTripType
  else if departureRangeError req then .error .invalidDateRange
  else if missingReturnConfigError req then .error .missingReturnConfig
  else if returnRangeError req then .error .invalidReturnRange
  else
    let offers := sweepOffers max_span today fetchRaw req
    if offers.isEmpty then .error .noOffersFound
    else .ok (flattenOffers req.top_n offers)

instance {ε α : Type} [DecidableEq ε] [DecidableEq α] :
    DecidableEq (Except ε α) :=
  fun x y =>
    match x, y with
    | .error a, .error b =>
      if h : a = b then isTrue (by rw [h])
      else isFalse (fun c => h (by injection c))
    | .error _, .ok _ => isFalse (fun c => by injection c)
    | .ok _, .error _ => isFalse (fun c => by injection c)
    | .ok a, .ok b =>
      if h : a = b then isTrue (by rw [h])
      else isFalse (fun c => h (by injection c))

/-- Conjunction of the four pre-sweep validation checks of `search_top`;
execution reaches the sweep exactly when it holds. -/
def validationOk (req : SearchRequest) : Bool :=
  (req.trip_type == "one_way" || req.trip_type == "round_trip")
    && !departureRangeError req && !missingReturnConfigError req
    && !returnRangeError req

/-- Derived pairing list (with the cited 1-based departure index) used
to state the progress/fetch interleaving contract of the sweep. -/
def tracePairs (max_span : Int) (today : Int) (req : SearchRequest) :
    List ((Int × Option Int) × Int) :=
  (List.range (departureSpan max_span req).toNat).flatMap (fun (offset : Nat) =>
    (depPairs req.trip_type (returnDates max_span req) req.return_days
        (departureStart today req + (offset : Int))).map
      (fun r => ((departureStart today req + (offset : Int), r), (offset : Int) + 1)))

/-- Strict order on the optional return dates of one departure's
pairings: both present and ascending. -/
def retLt (a b : Option Int) : Prop :=
  ∃ x y, a = some x ∧ b = some y ∧ x < y

/-- The same request with the `return_days` field replaced. -/
def withReturnDays (req : SearchRequest) (rd : Option Int) : SearchRequest :=
  ⟨req.origin, req.destination, req.currency, req.days_ahead, req.trip_type,
   req.top_n, req.date_from, req.date_to, rd,
   req.return_date_from, req.return_date_to⟩

/-- Fixture: round trip, `return_days = 7`, explicit departure range
2024-06-01 .. 2024-06-02, no explicit return range. -/
def reqReturnDays : SearchRequest :=
  ⟨"YUL", "CDG", "EUR", 120, "round_trip", 5,
   some (toOrdinal 2024 6 1), some (toOrdinal 2024 6 2), some 7, none, none⟩

/-- Fixture: round trip, one departure date (ordinal 1000) and an
explicit return range of two dates (1000 and 1001). -/
def reqRangeOne : SearchRequest :=
  ⟨"YUL", "CDG", "EUR", 120, "round_trip", 5,
   some 1000, some 1000, none, some 1000, some 1001⟩

/-- Fixture: round trip whose explicit return dates (900, 901) all fall
before every departure date (1000, 1001). -/
def reqAllEarlier : SearchRequest :=
  ⟨"YUL", "CDG", "EUR", 120, "round_trip", 5,
   some 1000, some 1001, none, some 900, some 901⟩

/-- Fixture: round trip with BOTH `return_days = 7` and a complete
explicit return range 2024-06-10 .. 2024-06-12, departures
2024-06-01 .. 2024-06-05. -/
def reqBoth : SearchRequest :=
  ⟨"YUL", "CDG", "EUR", 120, "round_trip", 5,
   some (toOrdinal 2024 6 1), some (toOrdinal 2024 6 5), some 7,
   some (toOrdinal 2024 6 10), some (toOrdinal 2024 6 12)⟩

/-! Helper lemmas about the deduplication step. -/

theorem dedupAux_sublist (l : List FlightOffer) :
    ∀ seen, (dedupAux seen l).Sublist l := by
  induction l with
  | nil => intro seen; simp [dedupAux]
  | cons o rest ih =>
    intro seen
    by_cases h : dedupKey o ∈ seen
    · simpa [dedupAux, h] using (ih seen).cons o
    · simpa [dedupAux, h] using (ih (dedupKey o :: seen)).cons₂ o

theorem dedupAux_spec (l : List FlightOffer) :
    ∀ seen, (∀ o ∈ dedupAux seen l, dedupKey o ∉ seen)
      ∧ ((dedupAux seen l).map dedupKey).Nodup := by
  induction l with
  | nil => intro seen; constructor <;> simp [dedupAux]
  | cons o rest ih =>
    intro seen
    by_cases h : dedupKey o ∈ seen
    · simpa [dedupAux, h] using ih seen
    · have h1 := (ih (dedupKey o :: seen)).1
      have h2 := (ih (dedupKey o :: seen)).2
      constructor
      · intro x hx
        rw [dedupAux] at hx
        rw [if_neg h] at hx
        rcases List.mem_cons.mp hx with rfl | hx
        · exact h
        · exact fun hc => (h1 x hx) (List.mem_cons_of_mem _ hc)
      · rw [dedupAux, if_neg h]
        rw [List.map_cons, List.nodup_cons]
        refine ⟨?_, h2⟩
        intro hmem
        rcases List.mem_map.mp hmem with ⟨x, hx, hkey⟩
        exact (h1 x hx) (by simp [hkey])

theorem dedupAux_fixed (l : List FlightOffer) :
    ∀ seen, (l.map dedupKey).Nodup → (∀ o ∈ l, dedupKey o ∉ seen) →
      dedupAux seen l = l := by
  induction l with
  | nil => intro seen _ _; rfl
  | cons o rest ih =>
    intro seen hn hs
    have h : dedupKey o ∉ seen := hs o (List.mem_cons_self o rest)
    rw [dedupAux, if_neg h]
    congr 1
    rw [List.map_cons, List.nodup_cons] at hn
    apply ih
    · exact hn.2
    · intro x hx
      intro hc
      rcases List.mem_cons.mp hc with hc' | hc'
      · exact hn.1 (List.mem_map.mpr ⟨x, hx, hc'⟩)
      · exact hs x (List.mem_cons_of_mem _ hx) hc'

/-- C3: the deduplication step — dropping every offer whose dedup tuple
(price, outbound_departure, outbound_arrival, inbound_departure,
inbound_arrival, carriers) equals that of an earlier offer, keeping
first occurrences in order — is idempotent: applied to its own output
it returns that output unchanged. -/
theorem dedup_idempotent (l : List FlightOffer) :
    dedupOffers (dedupOffers l) = dedupOffers l :=
  dedupAux_fixed (dedupAux [] l) [] (dedupAux_spec l []).2
    (fun o _ => List.not_mem_nil (dedupKey o))

/-! Helper lemmas about the greedy diversified selection. -/

theorem selectAux_sublist (tn : Int) (l : List FlightOffer) :
    ∀ seen c, (selectAux tn seen c l).Sublist l := by
  induction l with
  | nil => intro seen c; simp [selectAux]
  | cons o rest ih =>
    intro seen c
    by_cases h1 : sigOf o ∈ seen
    · simpa [selectAux, h1] using (ih seen c).cons o
    · by_cases h2 : tn ≤ c + 1
      · simp [selectAux, h1, h2]
      · simpa [selectAux, h1, h2] using (ih (sigOf o :: seen) (c + 1)).cons₂ o

theorem selectAux_sig (tn : Int) (l : List FlightOffer) :
    ∀ seen c, ((selectAux tn seen c l).map sigOf).Nodup
      ∧ ∀ x ∈ selectAux tn seen c l, sigOf x ∉ seen := by
  induction l with
  | nil => intro seen c; constructor <;> simp [selectAux]
  | cons o rest ih =>
    intro seen c
    by_cases h1 : sigOf o ∈ seen
    · simpa [selectAux, h1] using ih seen c
    · by_cases h2 : tn ≤ c + 1
      · constructor
        · simp [selectAux, h1, h2]
        · intro x hx
          simp only [selectAux, if_neg h1, if_pos h2, List.mem_singleton] at hx
          subst hx; exact h1
      · have ihh := ih (sigOf o :: seen) (c + 1)
        constructor
        · rw [selectAux, if_neg h1, if_neg h2, List.map_cons, List.nodup_cons]
          refine ⟨?_, ihh.1⟩
          intro hmem
          rcases List.mem_map.mp hmem with ⟨x, hx, hkey⟩
          exact (ihh.2 x hx) (by simp [hkey])
        · intro x hx
          rw [selectAux, if_neg h1, if_neg h2] at hx
          rcases List.mem_cons.mp hx with rfl | hx
          · exact h1
          · exact fun hc => (ihh.2 x hx) (List.mem_cons_of_mem _ hc)

theorem selectAux_length (tn : Int) (l : List FlightOffer) :
    ∀ seen c, c < tn → ((selectAux tn seen c l).length : Int) ≤ tn - c := by
  induction l with
  | nil => intro seen c h; simp [selectAux]; omega
  | cons o rest ih =>
    intro seen c h
    by_cases h1 : sigOf o ∈ seen
    · simpa [selectAux, h1] using ih seen c h
    · by_cases h2 : tn ≤ c + 1
      · simp [selectAux, h1, h2]; omega
      · have := ih (sigOf o :: seen) (c + 1) (by omega)
        rw [selectAux, if_neg h1, if_neg h2, List.length_cons]
        push_cast
        omega

/-! Helper lemmas about grouping, bucket keys and the flattened output. -/

theorem mem_bucketOf {l : List FlightOffer} {k : String} {o : FlightOffer} :
    o ∈ bucketOf l k ↔ o ∈ dedupOffers l ∧ bucketKey o = k := by
  unfold bucketOf
  rw [List.mem_filter]
  simp [beq_iff_eq]

theorem mem_selectBucket {tn : Int} {b : List FlightOffer} {o : FlightOffer}
    (h : o ∈ selectBucket tn b) : o ∈ b := by
  have h1 : o ∈ List.insertionSort priceLE b :=
    (selectAux_sublist tn (List.insertionSort priceLE b) [] 0).subset h
  exact (List.perm_insertionSort priceLE b).mem_iff.mp h1

theorem selectBucket_key {tn : Int} {l : List FlightOffer} {k : String}
    {o : FlightOffer} (h : o ∈ selectBucket tn (bucketOf l k)) :
    bucketKey o = k :=
  (mem_bucketOf.mp (mem_selectBucket h)).2

theorem orderedKeys_nodup (l : List FlightOffer) : (orderedKeys l).Nodup := by
  unfold orderedKeys
  have hfit : ((groupKeys l).filter (fun k => !(k == "unknown"))).Nodup :=
    (List.nodup_dedup _).filter _
  have hsort : (List.insertionSort strLe
      ((groupKeys l).filter (fun k => !(k == "unknown")))).Nodup :=
    (List.perm_insertionSort strLe _).nodup_iff.mpr hfit
  have hun : "unknown" ∉ List.insertionSort strLe
      ((groupKeys l).filter (fun k => !(k == "unknown"))) := by
    intro hmem
    have := (List.perm_insertionSort strLe _).mem_iff.mp hmem
    rcases List.mem_filter.mp this with ⟨_, hp⟩
    simp at hp
  by_cases hu : "unknown" ∈ groupKeys l
  · rw [if_pos hu, List.nodup_append]
    refine ⟨hsort, List.nodup_singleton _, ?_⟩
    intro a ha hb
    rw [List.mem_singleton] at hb
    subst hb
    exact hun ha
  · rw [if_neg hu, List.append_nil]
    exact hsort

theorem flatMap_if_eq {α : Type} [DecidableEq α] {β : Type}
    (ks : List α) (hnd : ks.Nodup) (g : α → List β) (k : α) :
    (ks.flatMap (fun j => if j = k then g j else [])) =
      if k ∈ ks then g k else [] := by
  induction ks with
  | nil => simp
  | cons j ks ih =>
    rw [List.nodup_cons] at hnd
    rw [List.flatMap_cons, ih hnd.2]
    by_cases hj : j = k
    · subst hj
      rw [if_pos rfl, if_neg hnd.1, if_pos (List.mem_cons_self j ks), List.append_nil]
    · rw [if_neg hj]
      by_cases hk : k ∈ ks
      · rw [if_pos hk, if_pos (List.mem_cons_of_mem _ hk), List.nil_append]
      · rw [if_neg hk, if_neg (by simp [hj, hk, Ne.symm]), List.nil_append]

theorem filter_flattenOffers (tn : Int) (l : List FlightOffer) (k : String) :
    (flattenOffers tn l).filter (fun o => bucketKey o == k) =
      if k ∈ orderedKeys l then selectBucket tn (bucketOf l k) else [] := by
  unfold flattenOffers
  rw [List.filter_flatMap]
  have hstep : ∀ j, (selectBucket tn (bucketOf l j)).filter (fun o => bucketKey o == k)
      = if j = k then selectBucket tn (bucketOf l j) else [] := by
    intro j
    by_cases hj : j = k
    · subst hj
      rw [if_pos rfl]
      rw [List.filter_eq_self]
      intro o ho
      exact beq_iff_eq.mpr (selectBucket_key ho)
    · rw [if_neg hj]
      rw [List.filter_eq_nil_iff]
      intro o ho hc
      exact hj ((selectBucket_key ho).symm.trans (beq_iff_eq.mp hc))
  calc (orderedKeys l).flatMap
        (fun j => (selectBucket tn (bucketOf l j)).filter (fun o => bucketKey o == k))
      = (orderedKeys l).flatMap
        (fun j => if j = k then selectBucket tn (bucketOf l j) else []) := by
        apply List.flatMap_congr
        intro j _
        exact hstep j
    _ = if k ∈ orderedKeys l then selectBucket tn (bucketOf l k) else [] :=
        flatMap_if_eq _ (orderedKeys_nodup l) _ k

/-- C1: for every input offer collection and every positive `top_n`, in
the list returned by `search_top`, within each outbound-date bucket
(here: the offers of the output whose bucket key is `k`) the selected
offers appear in non-decreasing price order, no two of them share the
same return signature `(return-date-or-"oneway", price)`, and the
bucket contributes at most `top_n` offers to the output. -/
theorem bucket_selection_spec (l : List FlightOffer) (tn : Int)
    (h : 0 < tn) (k : String) :
    ((flattenOffers tn l).filter (fun o => bucketKey o == k)).Sorted priceLE
    ∧ (((flattenOffers tn l).filter (fun o => bucketKey o == k)).map sigOf).Nodup
    ∧ (((flattenOffers tn l).filter (fun o => bucketKey o == k)).length : Int) ≤ tn := by
  rw [filter_flattenOffers]
  by_cases hk : k ∈ orderedKeys l
  · rw [if_pos hk]
    refine ⟨?_, ?_, ?_⟩
    · exact (List.sorted_insertionSort priceLE (bucketOf l k)).sublist
        (selectAux_sublist tn _ [] 0)
    · exact (selectAux_sig tn _ [] 0).1
    · have := selectAux_length tn (List.insertionSort priceLE (bucketOf l k)) [] 0 h
      simpa using this
  · rw [if_neg hk]
    refine ⟨List.sorted_nil, List.nodup_nil, by simp; omega⟩

/-- Witness for C1 at the spec's own scenario (three offers dated
2024-05-01 priced 200, 150, 150 and one dated 2024-05-02 priced 300,
`top_n = 2`). -/
theorem bucket_selection_spec_witness :
    (0 : Int) < 2 ∧
    (((flattenOffers 2
        [⟨200, "EUR", none, some "2024-05-01T08:00:00", some "2024-05-01T10:00:00", none, none, ["AA"]⟩,
         ⟨150, "EUR", none, some "2024-05-01T09:00:00", some "2024-05-01T11:00:00", none, none, ["BB"]⟩,
         ⟨150, "EUR", none, some "2024-05-01T09:00:00", some "2024-05-01T11:00:00", none, none, ["BB"]⟩,
         ⟨300, "EUR", none, some "2024-05-02T08:00:00", some "2024-05-02T10:00:00", none, none, ["AA"]⟩]).filter
        (fun o => bucketKey o == "2024-05-01")).Sorted priceLE
      ∧ (((flattenOffers 2
        [⟨200, "EUR", none, some "2024-05-01T08:00:00", some "2024-05-01T10:00:00", none, none, ["AA"]⟩,
         ⟨150, "EUR", none, some "2024-05-01T09:00:00", some "2024-05-01T11:00:00", none, none, ["BB"]⟩,
         ⟨150, "EUR", none, some "2024-05-01T09:00:00", some "2024-05-01T11:00:00", none, none, ["BB"]⟩,
         ⟨300, "EUR", none, some "2024-05-02T08:00:00", some "2024-05-02T10:00:00", none, none, ["AA"]⟩]).filter
        (fun o => bucketKey o == "2024-05-01")).map sigOf).Nodup
      ∧ (((flattenOffers 2
        [⟨200, "EUR", none, some "2024-05-01T08:00:00", some "2024-05-01T10:00:00", none, none, ["AA"]⟩,
         ⟨150, "EUR", none, some "2024-05-01T09:00:00", some "2024-05-01T11:00:00", none, none, ["BB"]⟩,
         ⟨150, "EUR", none, some "2024-05-01T09:00:00", some "2024-05-01T11:00:00", none, none, ["BB"]⟩,
         ⟨300, "EUR", none, some "2024-05-02T08:00:00", some "2024-05-02T10:00:00", none, none, ["AA"]⟩]).filter
        (fun o => bucketKey o == "2024-05-01")).length : Int) ≤ 2) :=
  ⟨by decide,
   bucket_selection_spec
     [⟨200, "EUR", none, some "2024-05-01T08:00:00", some "2024-05-01T10:00:00", none, none, ["AA"]⟩,
      ⟨150, "EUR", none, some "2024-05-01T09:00:00", some "2024-05-01T11:00:00", none, none, ["BB"]⟩,
      ⟨150, "EUR", none, some "2024-05-01T09:00:00", some "2024-05-01T11:00:00", none, none, ["BB"]⟩,
      ⟨300, "EUR", none, some "2024-05-02T08:00:00", some "2024-05-02T10:00:00", none, none, ["AA"]⟩]
     2 (by decide) "2024-05-01"⟩

/-! Bucket ordering: ascending date-string order with "unknown" last. -/

theorem mem_sorted_keys {l : List FlightOffer} {k : String}
    (h : k ∈ List.insertionSort strLe ((groupKeys l).filter (fun j => !(j == "unknown")))) :
    k ≠ "unknown" := by
  have := (List.perm_insertionSort strLe _).mem_iff.mp h
  rcases List.mem_filter.mp this with ⟨_, hp⟩
  simpa using hp

theorem orderedKeys_pairwise (l : List FlightOffer) :
    (orderedKeys l).Pairwise
      (fun a b => a ≠ "unknown" ∧ (b = "unknown" ∨ strLt a b)) := by
  unfold orderedKeys
  have hfit : ((groupKeys l).filter (fun j => !(j == "unknown"))).Nodup :=
    (List.nodup_dedup _).filter _
  have hsortnd : (List.insertionSort strLe
      ((groupKeys l).filter (fun j => !(j == "unknown")))).Nodup :=
    (List.perm_insertionSort strLe _).nodup_iff.mpr hfit
  have hsorted : (List.insertionSort strLe
      ((groupKeys l).filter (fun j => !(j == "unknown")))).Pairwise strLe :=
    List.sorted_insertionSort strLe _
  have hmain : (List.insertionSort strLe
      ((groupKeys l).filter (fun j => !(j == "unknown")))).Pairwise
      (fun a b => a ≠ "unknown" ∧ (b = "unknown" ∨ strLt a b)) := by
    refine (hsorted.and hsortnd).imp_of_mem ?_
    intro a b ha _ hr
    exact ⟨mem_sorted_keys ha, Or.inr ⟨hr.1, hr.2⟩⟩
  rw [List.pairwise_append]
  refine ⟨hmain, ?_, ?_⟩
  · by_cases hu : "unknown" ∈ groupKeys l <;> simp [hu]
  · intro a ha b hb
    by_cases hu : "unknown" ∈ groupKeys l
    · rw [if_pos hu, List.mem_singleton] at hb
      subst hb
      exact ⟨mem_sorted_keys ha, Or.inl rfl⟩
    · rw [if_neg hu] at hb
      exact absurd hb (List.not_mem_nil b)

/-- C2: in the list returned by `search_top`, buckets appear in
ascending order of their date string, and the `"unknown"` bucket, when
present, appears strictly after every dated bucket: any two offers of
the output either share a bucket key, or the earlier one has a dated
key that is either strictly below the later one's key or is followed by
the `"unknown"` key.  (Since the relation below is asymmetric on
distinct keys, this also forces each bucket to be one contiguous run.) -/
theorem buckets_ordered (tn : Int) (l : List FlightOffer) :
    (flattenOffers tn l).Pairwise (fun o o' =>
      bucketKey o = bucketKey o'
      ∨ (bucketKey o ≠ "unknown"
         ∧ (bucketKey o' = "unknown" ∨ strLt (bucketKey o) (bucketKey o')))) := by
  unfold flattenOffers
  rw [List.pairwise_flatMap]
  constructor
  · intro k _
    apply List.pairwise_of_forall_mem_list
    intro a ha b hb
    exact Or.inl ((selectBucket_key ha).trans (selectBucket_key hb).symm)
  · refine (orderedKeys_pairwise l).imp_of_mem ?_
    intro k1 k2 _ _ hr x hx y hy
    rw [selectBucket_key hx, selectBucket_key hy]
    exact Or.inr hr

/-! Price positivity of parsed offers and of the final output. -/

theorem parseOffer_price_pos {m : List (String × String)} {cur : String}
    {o : RawOffer} {f : FlightOffer} (h : parseOffer m cur o = some f) :
    0 < f.price := by
  obtain ⟨pi, its⟩ := o
  cases pi with
  | none => exact absurd h (by simp [parseOffer])
  | some g =>
    simp only [parseOffer] at h
    by_cases ht : g.getD 0 ≤ 0
    · rw [if_pos ht] at h
      exact absurd h (by simp)
    · rw [if_neg ht] at h
      obtain rfl := (Option.some.inj h).symm
      exact not_le.mp ht

theorem parseResponse_price_pos (cur : String) (resp : SearchResponse)
    (o : FlightOffer) (ho : o ∈ parseResponse cur resp) : 0 < o.price := by
  have hm := (List.perm_insertionSort priceLE _).mem_iff.mp ho
  rcases List.mem_filterMap.mp hm with ⟨raw, _, hp⟩
  exact parseOffer_price_pos hp

theorem flattenOffers_subset {tn : Int} {l : List FlightOffer}
    {o : FlightOffer} (h : o ∈ flattenOffers tn l) : o ∈ l := by
  rcases List.mem_flatMap.mp h with ⟨k, _, hsel⟩
  exact (dedupAux_sublist l []).subset (mem_bucketOf.mp (mem_selectBucket hsel)).1

/-- C9: no offer with missing price information or non-positive total
price appears among the parsed offers of one call, and every offer in
a successful final output of `search_top` has price strictly greater
than zero. -/
theorem output_prices_positive :
    (∀ (cur : String) (resp : SearchResponse) (o : FlightOffer),
        o ∈ parseResponse cur resp → 0 < o.price)
    ∧ ∀ (max_span : Int) (today : Int)
        (fetchRaw : Int → Option Int → SearchResponse) (req : SearchRequest)
        (out : List FlightOffer),
        search_top max_span today fetchRaw req = .ok out →
        ∀ o ∈ out, 0 < o.price := by
  refine ⟨parseResponse_price_pos, ?_⟩
  intro ms today fetchRaw req out hok o ho
  unfold search_top at hok
  split_ifs at hok
  rw [show (let offers := sweepOffers ms today fetchRaw req;
      if offers.isEmpty = true then Except.error SearchFailure.noOffersFound
      else Except.ok (flattenOffers req.top_n offers)) =
      (if (sweepOffers ms today fetchRaw req).isEmpty = true
       then Except.error SearchFailure.noOffersFound
       else Except.ok (flattenOffers req.top_n (sweepOffers ms today fetchRaw req)))
    from rfl] at hok
  by_cases he : (sweepOffers ms today fetchRaw req).isEmpty
  · rw [if_pos he] at hok
    exact absurd hok (by simp)
  · rw [if_neg he] at hok
    obtain rfl := (Except.ok.inj hok).symm
    have hsw : o ∈ sweepOffers ms today fetchRaw req := flattenOffers_subset ho
    rcases List.mem_flatMap.mp hsw with ⟨p, _, hp⟩
    exact parseResponse_price_pos req.currency (fetchRaw p.1 p.2) o hp

/-- Witness for C9: a one-way request against a fixed response with one
100-priced offer succeeds and every output offer has positive price. -/
theorem output_prices_positive_witness :
    search_top 30 800
      (fun _ _ => ⟨[⟨some (some 100),
                     [⟨[⟨"2024-06-01T08:00:00", "2024-06-01T10:00:00", some "AA", none⟩]⟩]⟩],
                   [("AA", "Alpha Air")]⟩)
      ⟨"YUL", "CDG", "EUR", 120, "one_way", 5, some 1000, some 1000, none, none, none⟩
      = .ok [⟨100, "EUR", none, some "2024-06-01T08:00:00", some "2024-06-01T10:00:00",
              none, none, ["Alpha Air"]⟩]
    ∧ ∀ o ∈ [(⟨100, "EUR", none, some "2024-06-01T08:00:00", some "2024-06-01T10:00:00",
              none, none, ["Alpha Air"]⟩ : FlightOffer)], 0 < o.price :=
  ⟨by decide,
   output_prices_positive.2 30 800
     (fun _ _ => ⟨[⟨some (some 100),
                    [⟨[⟨"2024-06-01T08:00:00", "2024-06-01T10:00:00", some "AA", none⟩]⟩]⟩],
                  [("AA", "Alpha Air")]⟩)
     ⟨"YUL", "CDG", "EUR", 120, "one_way", 5, some 1000, some 1000, none, none, none⟩
     [⟨100, "EUR", none, some "2024-06-01T08:00:00", some "2024-06-01T10:00:00",
       none, none, ["Alpha Air"]⟩]
     (by decide)⟩

/-! Date-range expansion. -/

theorem expandDates_length (s n : Int) : (expandDates s n).length = n.toNat := by
  unfold expandDates
  rw [List.length_map, List.length_range]

theorem expandDates_chain (s n : Int) :
    List.Chain' (fun a b => b = a + 1) (expandDates s n) := by
  rw [List.chain'_iff_get]
  intro i hi
  simp only [List.get_eq_getElem, expandDates, List.getElem_map, List.getElem_range]
  push_cast
  ring

theorem expandDates_head (s n : Int) (h : 0 < n) :
    (expandDates s n).head? = some s := by
  unfold expandDates
  have hn : n.toNat = (n.toNat - 1) + 1 := by omega
  rw [hn, List.range_succ_eq_map]
  simp

/-- C7: for every explicit date pair with `end ≥ start` (and a positive
span ceiling), the expanded departure-date sequence has length exactly
`min (end - start + 1) max_span`, consists of consecutive calendar
dates, and starts at the start date; and the same holds for an explicit
return range. -/
theorem explicit_range_expansion (max_span : Int) (today : Int)
    (req : SearchRequest) (hms : 0 < max_span) :
    (∀ s e, req.date_from = some s → req.date_to = some e → s ≤ e →
      ((expandDates (departureStart today req) (departureSpan max_span req)).length : Int)
          = min (e - s + 1) max_span
      ∧ List.Chain' (fun a b => b = a + 1)
          (expandDates (departureStart today req) (departureSpan max_span req))
      ∧ (expandDates (departureStart today req) (departureSpan max_span req)).head? = some s)
    ∧ (∀ rs r2, req.return_date_from = some rs → req.return_date_to = some r2 → rs ≤ r2 →
      ((returnDates max_span req).length : Int) = min (r2 - rs + 1) max_span
      ∧ List.Chain' (fun a b => b = a + 1) (returnDates max_span req)
      ∧ (returnDates max_span req).head? = some rs) := by
  constructor
  · intro s e hs he hle
    have hstart : departureStart today req = s := by
      simp [departureStart, hs, he]
    have hspan : departureSpan max_span req = min (e - s + 1) max_span := by
      simp [departureSpan, hs, he]
    rw [hstart, hspan]
    have hpos : 0 < min (e - s + 1) max_span := lt_min (by omega) hms
    have hlen : ((expandDates s (min (e - s + 1) max_span)).length : Int)
        = min (e - s + 1) max_span := by
      rw [expandDates_length]
      have := hpos
      omega
    exact ⟨hlen, expandDates_chain _ _, expandDates_head _ _ hpos⟩
  · intro rs r2 h1 h2 hle
    have hrd : returnDates max_span req = expandDates rs (min (r2 - rs + 1) max_span) := by
      simp [returnDates, h1, h2]
    rw [hrd]
    have hpos : 0 < min (r2 - rs + 1) max_span := lt_min (by omega) hms
    have hlen : ((expandDates rs (min (r2 - rs + 1) max_span)).length : Int)
        = min (r2 - rs + 1) max_span := by
      rw [expandDates_length]
      have := hpos
      omega
    exact ⟨hlen, expandDates_chain _ _, expandDates_head _ _ hpos⟩

/-- Witness for C7 at `reqBoth` (departures 2024-06-01 .. 2024-06-05,
returns 2024-06-10 .. 2024-06-12, `max_span = 30`). -/
theorem explicit_range_expansion_witness :
    ((expandDates (departureStart 800 reqBoth) (departureSpan 30 reqBoth)).length : Int)
        = min (toOrdinal 2024 6 5 - toOrdinal 2024 6 1 + 1) 30
    ∧ List.Chain' (fun a b => b = a + 1)
        (expandDates (departureStart 800 reqBoth) (departureSpan 30 reqBoth))
    ∧ (expandDates (departureStart 800 reqBoth) (departureSpan 30 reqBoth)).head?
        = some (toOrdinal 2024 6 1)
    ∧ ((returnDates 30 reqBoth).length : Int)
        = min (toOrdinal 2024 6 12 - toOrdinal 2024 6 10 + 1) 30
    ∧ List.Chain' (fun a b => b = a + 1) (returnDates 30 reqBoth)
    ∧ (returnDates 30 reqBoth).head? = some (toOrdinal 2024 6 10) := by
  have h := explicit_range_expansion 30 800 reqBoth (by decide)
  have h1 := h.1 (toOrdinal 2024 6 1) (toOrdinal 2024 6 5) rfl rfl (by decide)
  have h2 := h.2 (toOrdinal 2024 6 10) (toOrdinal 2024 6 12) rfl rfl (by decide)
  exact ⟨h1.1, h1.2.1, h1.2.2, h2.1, h2.2.1, h2.2.2⟩

/-! The sweep's fetch calls. -/

theorem flatMap_single {α β : Type} (l : List α) (f : α → β) :
    (l.flatMap (fun x => [f x])) = l.map f := by
  induction l with
  | nil => rfl
  | cons a l ih =>
    rw [List.flatMap_cons, List.map_cons, ih]
    rfl

theorem fetchCalls_pairBlocks (start span : Int) (trip : String)
    (rds : List Int) (rd : Option Int) :
    fetchCalls (pairBlocks start span trip rds rd)
      = (List.range span.toNat).flatMap (fun (offset : Nat) =>
          (depPairs trip rds rd (start + (offset : Int))).map
            (fun r => (start + (offset : Int), r))) := by
  unfold fetchCalls pairBlocks
  rw [List.filterMap_flatMap]
  apply List.flatMap_congr
  intro offset _
  rw [List.filterMap_flatMap]
  induction depPairs trip rds rd (start + (offset : Int)) with
  | nil => rfl
  | cons r rs ih =>
    rw [List.flatMap_cons, List.map_cons, ih]
    rfl

/-- C4: for every round-trip request configured with `return_days` and
no explicit return range, the sweep issues exactly one fetch call per
expanded departure date, with return date equal to departure date plus
`return_days`, and the expanded departure dates are consecutive
ascending. -/
theorem return_days_pairing (max_span today : Int) (req : SearchRequest)
    (k : Int) (htt : req.trip_type = "round_trip")
    (hrd : req.return_days = some k)
    (hnr : req.return_date_from = none ∨ req.return_date_to = none) :
    fetchCalls (sweepTrace max_span today req)
      = (expandDates (departureStart today req) (departureSpan max_span req)).map
          (fun d => (d, some (d + k)))
    ∧ List.Chain' (fun a b => b = a + 1)
        (expandDates (departureStart today req) (departureSpan max_span req)) := by
  have hrds : returnDates max_span req = [] := by
    rcases hnr with h | h
    · simp [returnDates, h]
    · cases hx : req.return_date_from <;> simp [returnDates, h, hx]
  refine ⟨?_, expandDates_chain _ _⟩
  unfold sweepTrace
  rw [fetchCalls_pairBlocks, hrds, htt, hrd]
  simp only [depPairs, expandDates, List.map_map, if_pos rfl,
    List.isEmpty_nil, ite_true, Option.getD_some, List.map_singleton]
  rw [flatMap_single]
  rfl

/-- Witness for C4: the spec's scenario, `return_days = 7` over the
departure range 2024-06-01 .. 2024-06-02: exactly the two fetch calls
(2024-06-01, 2024-06-08) then (2024-06-02, 2024-06-09), in order. -/
theorem return_days_pairing_witness :
    fetchCalls (sweepTrace 30 (toOrdinal 2024 5 1) reqReturnDays)
      = [(toOrdinal 2024 6 1, some (toOrdinal 2024 6 8)),
         (toOrdinal 2024 6 2, some (toOrdinal 2024 6 9))] := by
  have h := return_days_pairing 30 (toOrdinal 2024 5 1) reqReturnDays 7
    rfl rfl (Or.inl rfl)
  rw [h.1]
  decide

/-! Relating `search_top`'s result to the validation checks and the
accumulated offers. -/

theorem search_top_of_valid (max_span today : Int)
    (fetchRaw : Int → Option Int → SearchResponse) (req : SearchRequest)
    (hv : validationOk req = true) :
    search_top max_span today fetchRaw req
      = if (sweepOffers max_span today fetchRaw req).isEmpty
        then .error .noOffersFound
        else .ok (flattenOffers req.top_n (sweepOffers max_span today fetchRaw req)) := by
  unfold validationOk at hv
  simp only [Bool.and_eq_true, Bool.or_eq_true, beq_iff_eq, Bool.not_eq_true'] at hv
  obtain ⟨⟨⟨htrip, hdep⟩, hmiss⟩, hret⟩ := hv
  unfold search_top
  rw [if_neg (not_not_intro htrip), if_neg (by simp [hdep]),
    if_neg (by simp [hmiss]), if_neg (by simp [hret])]

theorem search_top_invalid_ne (max_span today : Int)
    (fetchRaw : Int → Option Int → SearchResponse) (req : SearchRequest)
    (hv : validationOk req = false) :
    search_top max_span today fetchRaw req ≠ .error .noOffersFound := by
  unfold search_top
  by_cases h1 : req.trip_type = "one_way" ∨ req.trip_type = "round_trip"
  · rw [if_neg (not_not_intro h1)]
    by_cases h2 : departureRangeError req = true
    · rw [if_pos h2]; simp
    · rw [if_neg h2]
      by_cases h3 : missingReturnConfigError req = true
      · rw [if_pos h3]; simp
      · rw [if_neg h3]
        by_cases h4 : returnRangeError req = true
        · rw [if_pos h4]; simp
        · exfalso
          rw [Bool.not_eq_true] at h2 h3 h4
          rcases h1 with h | h <;> simp [validationOk, h, h2, h3, h4] at hv
  · rw [if_pos h1]; simp

theorem mem_expandDates {start span : Int} {offset : Nat}
    (h : offset < span.toNat) :
    start + (offset : Int) ∈ expandDates start span := by
  unfold expandDates
  exact List.mem_map.mpr ⟨offset, List.mem_range.mpr h, rfl⟩

/-- C8: `search_top` fails with NoOffersFound exactly when the sweep
completes (all validation checks pass) with an empty accumulated offer
collection; and for a round trip whose explicit return dates all fall
before every expanded departure date, no fetch call is made at all and
the sweep ends with NoOffersFound. -/
theorem no_offers_failure (max_span today : Int)
    (fetchRaw : Int → Option Int → SearchResponse) (req : SearchRequest) :
    (search_top max_span today fetchRaw req = .error .noOffersFound
      ↔ validationOk req = true ∧ sweepOffers max_span today fetchRaw req = [])
    ∧ (∀ rs r2, validationOk req = true → req.trip_type = "round_trip" →
        req.return_date_from = some rs → req.return_date_to = some r2 →
        (∀ r ∈ returnDates max_span req,
          ∀ d ∈ expandDates (departureStart today req) (departureSpan max_span req),
          r < d) →
        fetchCalls (sweepTrace max_span today req) = []
        ∧ search_top max_span today fetchRaw req = .error .noOffersFound) := by
  have part1 : search_top max_span today fetchRaw req = .error .noOffersFound
      ↔ validationOk req = true ∧ sweepOffers max_span today fetchRaw req = [] := by
    constructor
    · intro h
      by_cases hv : validationOk req = true
      · refine ⟨hv, ?_⟩
        rw [search_top_of_valid _ _ _ _ hv] at h
        by_cases he : (sweepOffers max_span today fetchRaw req).isEmpty
        · exact List.isEmpty_iff.mp he
        · rw [if_neg he] at h
          exact absurd h (by simp)
      · rw [Bool.not_eq_true] at hv
        exact absurd h (search_top_invalid_ne _ _ _ _ hv)
    · rintro ⟨hv, he⟩
      rw [search_top_of_valid _ _ _ _ hv, if_pos (List.isEmpty_iff.mpr he)]
  refine ⟨part1, ?_⟩
  intro rs r2 hv htt hrdf hrdt hall
  have hfc : fetchCalls (sweepTrace max_span today req) = [] := by
    unfold sweepTrace
    rw [fetchCalls_pairBlocks, List.flatMap_eq_nil_iff]
    intro offset hoff
    have hofflt : offset < (departureSpan max_span req).toNat :=
      List.mem_range.mp hoff
    have hspan_pos : 0 < departureSpan max_span req := by omega
    have hmem : departureStart today req + (offset : Int)
        ∈ expandDates (departureStart today req) (departureSpan max_span req) :=
      mem_expandDates hofflt
    have hrds_all : ∀ r ∈ returnDates max_span req,
        r < departureStart today req + (offset : Int) :=
      fun r hr => hall r hr _ hmem
    -- a non-empty departure range forces a positive max_span, which
    -- with a valid return range forces a non-empty return list
    have hle_ms : departureSpan max_span req ≤ max_span := by
      cases hx : req.date_from <;> cases hy : req.date_to <;>
        simp only [departureSpan, hx, hy] <;> exact min_le_right _ _
    have hms_pos : 0 < max_span := by omega
    have hret : returnRangeError req = false := by
      unfold validationOk at hv
      simp only [Bool.and_eq_true, Bool.not_eq_true'] at hv
      exact hv.2
    have hrs_le : rs ≤ r2 := by
      unfold returnRangeError at hret
      rw [hrdf, hrdt] at hret
      simp at hret
      omega
    have hrdeq : returnDates max_span req
        = expandDates rs (min (r2 - rs + 1) max_span) := by
      simp [returnDates, hrdf, hrdt]
    have hrdpos : 0 < (returnDates max_span req).length := by
      rw [hrdeq, expandDates_length]
      have hminpos : 0 < min (r2 - rs + 1) max_span := lt_min (by omega) hms_pos
      omega
    have hemp : ¬((returnDates max_span req).isEmpty = true) := by
      rw [List.isEmpty_iff]
      intro hnil
      rw [hnil] at hrdpos
      exact absurd hrdpos (by simp)
    have hfilter : (returnDates max_span req).filter
        (fun r => !(r < departureStart today req + (offset : Int))) = [] := by
      rw [List.filter_eq_nil_iff]
      intro r hr
      have := hrds_all r hr
      simp [this]
    have hdp : depPairs req.trip_type (returnDates max_span req) req.return_days
        (departureStart today req + (offset : Int)) = [] := by
      rw [depPairs, if_pos htt, if_neg hemp, hfilter]
      rfl
    rw [hdp]
    rfl
  refine ⟨hfc, ?_⟩
  rw [part1]
  refine ⟨hv, ?_⟩
  unfold sweepOffers
  rw [hfc]
  rfl

/-- Witness for C8 at `reqAllEarlier` (returns 900-901, departures
1000-1001): zero fetch calls and a NoOffersFound failure. -/
theorem no_offers_failure_witness :
    fetchCalls (sweepTrace 30 800 reqAllEarlier) = []
    ∧ search_top 30 800 (fun _ _ => ⟨[], []⟩) reqAllEarlier
        = .error .noOffersFound :=
  (no_offers_failure 30 800 (fun _ _ => ⟨[], []⟩) reqAllEarlier).2 900 901
    (by decide) rfl rfl rfl (by decide)

/-- C10: for a round-trip request configured with BOTH `return_days`
and a complete explicit return range, the sweep pairs each departure
date with exactly the expanded explicit return dates not earlier than
it; every fetch call's return date lies in the explicit range; and
replacing `return_days` by anything at all leaves the fetch calls
unchanged — `return_days` is ignored entirely. -/
theorem explicit_range_overrides (max_span today : Int) (req : SearchRequest)
    (k rs r2 : Int) (htt : req.trip_type = "round_trip")
    (_hrd : req.return_days = some k)
    (hrdf : req.return_date_from = some rs) (hrdt : req.return_date_to = some r2)
    (hle : rs ≤ r2) (hms : 0 < max_span) :
    fetchCalls (sweepTrace max_span today req)
      = (expandDates (departureStart today req) (departureSpan max_span req)).flatMap
          (fun d => ((returnDates max_span req).filter (fun r => !(r < d))).map
            (fun r => (d, some r)))
    ∧ (∀ p ∈ fetchCalls (sweepTrace max_span today req),
        ∃ r, r ∈ returnDates max_span req ∧ p.2 = some r ∧ p.1 ≤ r)
    ∧ ∀ rd' : Option Int,
        fetchCalls (sweepTrace max_span today (withReturnDays req rd'))
          = fetchCalls (sweepTrace max_span today req) := by
  have hrdeq : returnDates max_span req
      = expandDates rs (min (r2 - rs + 1) max_span) := by
    simp [returnDates, hrdf, hrdt]
  have hrdpos : 0 < (returnDates max_span req).length := by
    rw [hrdeq, expandDates_length]
    have hminpos : 0 < min (r2 - rs + 1) max_span := lt_min (by omega) hms
    omega
  have hemp : ¬((returnDates max_span req).isEmpty = true) := by
    rw [List.isEmpty_iff]
    intro hnil
    rw [hnil] at hrdpos
    exact absurd hrdpos (by simp)
  have key : ∀ rd' : Option Int,
      fetchCalls (pairBlocks (departureStart today req)
          (departureSpan max_span req) req.trip_type
          (returnDates max_span req) rd')
        = (expandDates (departureStart today req) (departureSpan max_span req)).flatMap
            (fun d => ((returnDates max_span req).filter (fun r => !(r < d))).map
              (fun r => (d, some r))) := by
    intro rd'
    rw [fetchCalls_pairBlocks]
    unfold expandDates
    rw [List.flatMap_map]
    apply List.flatMap_congr
    intro offset _
    rw [depPairs, if_pos htt, if_neg hemp, List.map_map]
    rfl
  have hwt : ∀ rd' : Option Int,
      sweepTrace max_span today (withReturnDays req rd')
        = pairBlocks (departureStart today req) (departureSpan max_span req)
            req.trip_type (returnDates max_span req) rd' := fun _ => rfl
  have conj1 : fetchCalls (sweepTrace max_span today req)
      = (expandDates (departureStart today req) (departureSpan max_span req)).flatMap
          (fun d => ((returnDates max_span req).filter (fun r => !(r < d))).map
            (fun r => (d, some r))) := key req.return_days
  refine ⟨conj1, ?_, ?_⟩
  · intro p hp
    rw [conj1] at hp
    rcases List.mem_flatMap.mp hp with ⟨d, _, hin⟩
    rcases List.mem_map.mp hin with ⟨r, hrf, rfl⟩
    rcases List.mem_filter.mp hrf with ⟨hr, hcond⟩
    refine ⟨r, hr, rfl, ?_⟩
    simpa using hcond
  · intro rd'
    rw [hwt rd', key rd', conj1]

/-- Witness for C10 at `reqBoth`: replacing `return_days = 7` by
`return_days = 99` produces the identical fetch-call list. -/
theorem explicit_range_overrides_witness :
    fetchCalls (sweepTrace 30 800 (withReturnDays reqBoth (some 99)))
      = fetchCalls (sweepTrace 30 800 reqBoth) :=
  (explicit_range_overrides 30 800 reqBoth 7 (toOrdinal 2024 6 10)
      (toOrdinal 2024 6 12) rfl rfl rfl rfl (by decide) (by decide)).2.2 (some 99)

/-! Progress/fetch interleaving of the sweep. -/

theorem sweepTrace_eq_blocks (max_span today : Int) (req : SearchRequest) :
    sweepTrace max_span today req
      = (tracePairs max_span today req).flatMap
          (fun pr => [SweepEvent.progress pr.1.1 pr.1.2 pr.2 (departureSpan max_span req),
                      SweepEvent.fetch pr.1.1 pr.1.2]) := by
  unfold sweepTrace pairBlocks tracePairs
  rw [List.flatMap_assoc]
  apply List.flatMap_congr
  intro offset _
  rw [List.flatMap_map]

theorem expandDates_pairwise (s n : Int) :
    (expandDates s n).Pairwise (· < ·) := by
  unfold expandDates
  rw [List.pairwise_map]
  refine (List.pairwise_lt_range n.toNat).imp ?_
  intro a b hab
  omega

theorem returnDates_pairwise (max_span : Int) (req : SearchRequest) :
    (returnDates max_span req).Pairwise (· < ·) := by
  unfold returnDates
  cases hx : req.return_date_from <;> cases hy : req.return_date_to <;>
    simp only [hx, hy]
  · exact List.Pairwise.nil
  · exact List.Pairwise.nil
  · exact List.Pairwise.nil
  · exact expandDates_pairwise _ _

theorem depPairs_pairwise (trip : String) (rds : List Int) (rd : Option Int)
    (dep : Int) (hrds : rds.Pairwise (· < ·)) :
    (depPairs trip rds rd dep).Pairwise retLt := by
  unfold depPairs
  by_cases h1 : trip = "round_trip"
  · rw [if_pos h1]
    by_cases h2 : rds.isEmpty = true
    · rw [if_pos h2]
      exact List.pairwise_singleton _ _
    · rw [if_neg h2, List.pairwise_map]
      refine (hrds.filter _).imp ?_
      intro a b hab
      exact ⟨a, b, rfl, rfl, hab⟩
  · rw [if_neg h1]
    exact List.pairwise_singleton _ _

theorem tracePairs_ordered (max_span today : Int) (req : SearchRequest) :
    ((tracePairs max_span today req).map Prod.fst).Pairwise
      (fun p q => p.1 < q.1 ∨ (p.1 = q.1 ∧ retLt p.2 q.2)) := by
  unfold tracePairs
  rw [List.map_flatMap, List.pairwise_flatMap]
  constructor
  · intro offset _
    rw [List.map_map, List.pairwise_map]
    refine (depPairs_pairwise _ _ _ _ (returnDates_pairwise _ _)).imp ?_
    intro a b hab
    exact Or.inr ⟨rfl, hab⟩
  · refine (List.pairwise_lt_range _).imp ?_
    intro i j hij x hx y hy
    rcases List.mem_map.mp hx with ⟨x0, hx0, rfl⟩
    rcases List.mem_map.mp hx0 with ⟨rx, _, rfl⟩
    rcases List.mem_map.mp hy with ⟨y0, hy0, rfl⟩
    rcases List.mem_map.mp hy0 with ⟨ry, _, rfl⟩
    left
    show departureStart today req + (i : Int) < departureStart today req + (j : Int)
    omega

theorem tracePairs_index (max_span today : Int) (req : SearchRequest) :
    ∀ pr ∈ tracePairs max_span today req,
      pr.2 = pr.1.1 - departureStart today req + 1
      ∧ 1 ≤ pr.2 ∧ pr.2 ≤ departureSpan max_span req := by
  intro pr hpr
  unfold tracePairs at hpr
  rcases List.mem_flatMap.mp hpr with ⟨offset, hoff, hin⟩
  rcases List.mem_map.mp hin with ⟨r, _, rfl⟩
  have hlt : offset < (departureSpan max_span req).toNat := List.mem_range.mp hoff
  refine ⟨by push_cast; ring, by omega, by omega⟩

/-- Counterexample to C5 as stated: for a round trip over one departure
date (1000) with an explicit return range of two dates (1000 and 1001)
the sweep makes two fetch calls, yet both progress notifications cite
`1/1` — the cited index is not the 1-based position among the fetch
calls and the cited total is not the number of fetch calls. -/
theorem progress_index_counterexample :
    (fetchCalls (sweepTrace 30 900 reqRangeOne)).length = 2
    ∧ sweepTrace 30 900 reqRangeOne
        = [SweepEvent.progress 1000 (some 1000) 1 1,
           SweepEvent.fetch 1000 (some 1000),
           SweepEvent.progress 1000 (some 1001) 1 1,
           SweepEvent.fetch 1000 (some 1001)] := by
  decide

/-- C5 (amended): every fetch call is immediately preceded by exactly
one progress notification identifying its date pairing — the trace is a
concatenation of [progress, fetch] blocks, one per pairing, and the
fetch calls are exactly the pairings; the pairings appear in ascending
departure-date order and, within one departure date, ascending
return-date order; and the cited `index/total` refer to the pairing's
departure date — index is its 1-based position among the expanded
departure dates and total is the departure-date span — not to positions
among fetch calls. -/
theorem sweep_progress_contract (max_span today : Int) (req : SearchRequest) :
    sweepTrace max_span today req
      = (tracePairs max_span today req).flatMap
          (fun pr => [SweepEvent.progress pr.1.1 pr.1.2 pr.2 (departureSpan max_span req),
                      SweepEvent.fetch pr.1.1 pr.1.2])
    ∧ ((tracePairs max_span today req).map Prod.fst).Pairwise
        (fun p q => p.1 < q.1 ∨ (p.1 = q.1 ∧ retLt p.2 q.2))
    ∧ (∀ pr ∈ tracePairs max_span today req,
        pr.2 = pr.1.1 - departureStart today req + 1
        ∧ 1 ≤ pr.2 ∧ pr.2 ≤ departureSpan max_span req)
    ∧ fetchCalls (sweepTrace max_span today req)
        = (tracePairs max_span today req).map Prod.fst := by
  refine ⟨sweepTrace_eq_blocks max_span today req, tracePairs_ordered max_span today req,
    tracePairs_index max_span today req, ?_⟩
  unfold fetchCalls
  rw [sweepTrace_eq_blocks max_span today req, List.filterMap_flatMap]
  exact flatMap_single _ _

/-- Witness for C5 (amended) at `reqRangeOne`. -/
theorem sweep_progress_contract_witness :
    sweepTrace 30 900 reqRangeOne
      = (tracePairs 30 900 reqRangeOne).flatMap
          (fun pr => [SweepEvent.progress pr.1.1 pr.1.2 pr.2 (departureSpan 30 reqRangeOne),
                      SweepEvent.fetch pr.1.1 pr.1.2])
    ∧ ((tracePairs 30 900 reqRangeOne).map Prod.fst).Pairwise
        (fun p q => p.1 < q.1 ∨ (p.1 = q.1 ∧ retLt p.2 q.2))
    ∧ (∀ pr ∈ tracePairs 30 900 reqRangeOne,
        pr.2 = pr.1.1 - departureStart 900 reqRangeOne + 1
        ∧ 1 ≤ pr.2 ∧ pr.2 ≤ departureSpan 30 reqRangeOne)
    ∧ fetchCalls (sweepTrace 30 900 reqRangeOne)
        = (tracePairs 30 900 reqRangeOne).map Prod.fst :=
  sweep_progress_contract 30 900 reqRangeOne

/-! The inbound carrier-collection defect. -/

/-- C6 (behaviour of the code at the defect the spec's design notes
flag): for an offer whose second itinerary has two segments with
carriers "BB" then "CC" (and outbound carrier "AA"), the parsed carrier
list is exactly ["AA", "CC"] — the first inbound segment's carrier "BB"
is dropped, because the appending loop runs only after the
segment loop has overwritten `code`/`operating` with the last
segment's values.  The claim (and the spec's stated intent) requires
every inbound segment's carrier to be collected. -/
theorem inbound_carriers_dropped :
    (parseOffer [] "EUR"
        ⟨some (some 100),
         [⟨[⟨"2024-05-01T08:00:00", "2024-05-01T10:00:00", some "AA", none⟩]⟩,
          ⟨[⟨"2024-05-08T08:00:00", "2024-05-08T10:00:00", some "BB", none⟩,
            ⟨"2024-05-08T11:00:00", "2024-05-08T13:00:00", some "CC", none⟩]⟩]⟩).map
      FlightOffer.carriers = some ["AA", "CC"] := by
  decide

end FlightDrop
